import Mathlib

/-!
Shallow embedding of `internal/terraform/rootmodule/root_module_manager.go`
(package `rootmodule` of terraform-ls).

The manager owns an ordered registry of root modules, resolves file paths to
registered roots (with a lock-file / module-manifest suffix fallback), merges
schemas across candidate roots, and coordinates cancellation. The `rootModule`
entity type and a few path helpers live in a different file of the same
package that is outside the analyzed slice; those are modelled from the spec
and are marked as such in their doc comments. Effects of the external world
(local cache discovery, the load sequence) are modelled by an explicit
environment `LoadEnv` mapping directories to outcomes.
-/

namespace RootModuleVerif

/-- Path separator: the model fixes `os.PathSeparator` to the POSIX `/`. -/
def pathSep : String := "/"

/-- Splits a character list on `/`, keeping empty segments,
accumulating the current segment in reverse in `acc`.
`splitSegs "a/b".data [] = ["a", "b"]`, `splitSegs "/a".data [] = ["", "a"]`. -/
def splitSegs : List Char → List Char → List String
  | [], acc => [String.mk acc.reverse]
  | c :: rest, acc =>
    if c = '/' then String.mk acc.reverse :: splitSegs rest []
    else splitSegs rest (c :: acc)

/-- One step of lexical path cleaning: drop empty and `.` segments, resolve
`..` against the segment stack (`acc` holds processed segments in reverse). -/
def cleanStep (rooted : Bool) (acc : List String) (c : String) : List String :=
  if c = "" then acc
  else if c = "." then acc
  else if c = ".." then
    match acc with
    | [] => if rooted then [] else [".."]
    | top :: rest => if top = ".." then c :: acc else rest
  else c :: acc

namespace filepath

/-- Model of the Go function `path/filepath.Clean` for the POSIX separator: shortest
lexically-equivalent path (collapse repeated separators, drop `.` elements,
resolve `..` against preceding elements, drop `..` at the root, empty input
becomes `.`). -/
def Clean (path : String) : String :=
  match path.data with
  | [] => "."
  | c₀ :: _ =>
    let rooted := c₀ == '/'
    let comps := splitSegs path.data []
    let segs := (comps.foldl (cleanStep rooted) []).reverse
    if rooted then "/" ++ String.intercalate "/" segs
    else if segs = [] then "." else String.intercalate "/" segs

end filepath

/-- Model of the Go function `strings.HasSuffix`, over the character lists of the strings. -/
def hasSuffix (s suf : String) : Bool :=
  suf.data.isSuffixOf s.data

/-- Model of the Go function `strings.TrimSuffix`: remove `suf` from the end of `s` when present. -/
def trimSuffix (s suf : String) : String :=
  if hasSuffix s suf then String.mk (s.data.take (s.data.length - suf.data.length)) else s

/-- Modelled from the spec: `pathEquals` (defined in a package file outside the
analyzed slice) implements the exact-match lookup of the registry, i.e. equality
of the two path strings. -/
def pathEquals (path1 path2 : String) : Bool :=
  path1 == path2

/-- Modelled from the spec: `pluginLockFilePaths` (defined outside the
analyzed slice) lists the well-known lock-file locations relative to a root
directory, rendered with the given separator. Each entry carries its leading
separator, so that for a root `r` with lock file at `r/.terraform/x`,
trimming the entry from the lock-file path yields `r` exactly, as the testable property of the spec requires. The platform-specific `os_arch` segment of the
legacy location is fixed to a constant. -/
def pluginLockFilePaths (sep : String) : List String :=
  [ sep ++ ".terraform" ++ sep ++ "plugins" ++ sep ++ "selections.json",
    sep ++ ".terraform" ++ sep ++ "plugins" ++ sep ++ "os_arch" ++ sep ++ "lock.json" ]

/-- Modelled from the spec: `moduleManifestFilePath` (defined outside the
analyzed slice) is the well-known module-manifest location relative to a root
directory, with its leading separator, matching the spec scenario in which
`/p/a/.terraform/modules/modules.json` strips to `/p/a`. -/
def moduleManifestFilePath (sep : String) : String :=
  sep ++ ".terraform" ++ sep ++ "modules" ++ sep ++ "modules.json"

/-- Translation of `trimLockFilePath`: strips known lock file paths and filenames to get the
directory path of the relevant rootModule (first matching plugin-lock suffix,
then the module-manifest suffix, else the path unchanged). -/
def trimLockFilePath (filePath : String) : String :=
  match (pluginLockFilePaths pathSep).find? (fun s => hasSuffix filePath s) with
  | some s => trimSuffix filePath s
  | none =>
    let moduleManifestSuffix := moduleManifestFilePath pathSep
    if hasSuffix filePath moduleManifestSuffix then
      trimSuffix filePath moduleManifestSuffix
    else filePath

/-- Holds when `filePath` ends in one of the recognized plugin-lock-file or
module-manifest suffixes. -/
def endsWithRecognizedSuffix (filePath : String) : Bool :=
  (pluginLockFilePaths pathSep).any (fun s => hasSuffix filePath s)
    || hasSuffix filePath (moduleManifestFilePath pathSep)

/-- Errors surfaced by the manager (Go `error` values). -/
inductive LsError where
  /-- the error `root module ... was already added` built with the directory -/
  | alreadyAdded (dir : String)
  /-- the `RootModuleNotFoundErr` value carrying the looked-up path -/
  | rootModuleNotFound (path : String)
  /-- any error produced by a collaborator (discovery, executor, schema merge) -/
  | external (msg : String)
deriving DecidableEq, Repr

/-- Merged schema for a root (`*schema.BodySchema`); abstracted to an
identifier, `Option` distinguishes a nil pointer from a present schema. -/
structure BodySchema where
  id : Nat
deriving DecidableEq, Repr

instance {ε α : Type} [DecidableEq ε] [DecidableEq α] : DecidableEq (Except ε α) := fun x y =>
  match x, y with
  | .error a, .error b =>
    match decEq a b with
    | isTrue h => isTrue (h ▸ rfl)
    | isFalse h => isFalse (fun hc => h (by cases hc; rfl))
  | .error _, .ok _ => isFalse (fun h => Except.noConfusion h)
  | .ok _, .error _ => isFalse (fun h => Except.noConfusion h)
  | .ok a, .ok b =>
    match decEq a b with
    | isTrue h => isTrue (h ▸ rfl)
    | isFalse h => isFalse (fun hc => h (by cases hc; rfl))

/-- Modelled from the spec: the Root Entity (`rootModule`, defined outside the
analyzed slice) as observed through the methods the manager calls: `Path`,
`WasInitialized` (boolean component; the manager discards the error
component), `MergedSchema`, `ReferencesModulePath`, `setLoadErr`,
`CancelLoading`. Toolchain settings are seeded at creation and immutable. -/
structure RootModule where
  path : String
  tfExecPath : String
  /-- a Go `time.Duration`, nanoseconds -/
  tfExecTimeout : Int
  tfExecLogPath : String
  /-- boolean result of `WasInitialized` -/
  inited : Bool
  /-- result of `MergedSchema()`: an error, a nil schema, or a schema -/
  mergedSchemaRes : Except LsError (Option BodySchema)
  /-- sub-module directory paths declared in the module manifest -/
  referencedModulePaths : List String
  /-- terminal load error recorded via `setLoadErr` -/
  loadErr : Option LsError
  /-- whether the cancellation handle of the entity has been signalled -/
  cancelled : Bool
deriving DecidableEq, Repr

/-- Modelled from the spec: `matchesManifestReference` is a pure membership
predicate over `referencedModulePaths`. -/
def RootModule.ReferencesModulePath (rm : RootModule) (path : String) : Bool :=
  rm.referencedModulePaths.contains path

/-- Modelled from the spec: signalling the cancellation handle of the entity. -/
def RootModule.CancelLoading (rm : RootModule) : RootModule :=
  { rm with cancelled := true }

/-- The manager state (`rootModuleManager`): ordered registry, loading-mode
flag, shared toolchain defaults, and the worker pool (reduced to its stopped
flag, the only pool state these operations touch). -/
structure rootModuleManager where
  rms : List RootModule
  syncLoading : Bool
  tfExecPath : String
  tfExecTimeout : Int
  tfExecLogPath : String
  poolStopped : Bool
deriving DecidableEq, Repr

/-- Environment describing the fallible external world per directory: the
outcome of the synchronous local-cache discovery step, the terminal error of
the load sequence, and the entity state the load/parsing leaves behind. -/
structure LoadEnv where
  discoverCachesErr : String → Option LsError
  loadErr : String → Option LsError
  inited : String → Bool
  mergedSchemaRes : String → Except LsError (Option BodySchema)
  referencedModulePaths : String → List String

/-- Translation of `rootModuleByPath`: first registered root whose path equals `dir`. -/
def rootModuleByPath (rmm : rootModuleManager) (dir : String) : Option RootModule :=
  rmm.rms.find? (fun rm => pathEquals rm.path dir)

/-- Translation of `RootModuleByPath`: clean the path, try the exact match, then retry after
trimming a recognized lock-file/manifest suffix, else `RootModuleNotFoundErr`
carrying the cleaned path. -/
def RootModuleByPath (rmm : rootModuleManager) (path : String) : Except LsError RootModule :=
  let path := filepath.Clean path
  match rootModuleByPath rmm path with
  | some rm => .ok rm
  | none =>
    let dir := trimLockFilePath path
    match rootModuleByPath rmm dir with
    | some rm => .ok rm
    | none => .error (.rootModuleNotFound path)

/-- Translation of `RootModuleCandidatesByPath`: the direct (exact, else suffix-trimmed)
match filtered by `WasInitialized`, followed by every registered root whose
referenced module paths contain the cleaned path, in registry order. -/
def RootModuleCandidatesByPath (rmm : rootModuleManager) (path : String) : List RootModule :=
  let path := filepath.Clean path
  let directPart : List RootModule :=
    match rootModuleByPath rmm path with
    | some rm => if rm.inited then [rm] else []
    | none =>
      match rootModuleByPath rmm (trimLockFilePath path) with
      | some rm => if rm.inited then [rm] else []
      | none => []
  directPart ++ rmm.rms.filter (fun rm => rm.ReferencesModulePath path)

/-- The candidate loop of `SchemaForPath`: first candidate whose
`MergedSchema()` returns no error and a non-nil schema; errors are logged and
skipped, nil schemas fall through. -/
def schemaLoop : List RootModule → Option BodySchema
  | [] => none
  | rm :: rest =>
    match rm.mergedSchemaRes with
    | .error _ => schemaLoop rest
    | .ok none => schemaLoop rest
    | .ok (some s) => some s

/-- Translation of `SchemaForPath`: iterate the candidates; if none yields a schema, fall
back to the strict `RootModuleByPath` match and return its merged schema or
its error. -/
def SchemaForPath (rmm : rootModuleManager) (path : String) :
    Except LsError (Option BodySchema) :=
  match schemaLoop (RootModuleCandidatesByPath rmm path) with
  | some s => .ok (some s)
  | none =>
    match RootModuleByPath rmm path with
    | .error e => .error e
    | .ok rm => rm.mergedSchemaRes

/-- Translation of `defaultRootModuleFactory`: build the entity seeded with the
current toolchain defaults of the manager, then run the synchronous
local-cache discovery step; its error is the error of the factory. -/
def defaultRootModuleFactory (env : LoadEnv) (rmm : rootModuleManager) (dir : String) :
    RootModule × Option LsError :=
  ({ path := dir
     tfExecPath := rmm.tfExecPath
     tfExecTimeout := rmm.tfExecTimeout
     tfExecLogPath := rmm.tfExecLogPath
     inited := env.inited dir
     mergedSchemaRes := env.mergedSchemaRes dir
     referencedModulePaths := env.referencedModulePaths dir
     loadErr := none
     cancelled := false },
   env.discoverCachesErr dir)

/-- Translation of `AddAndStartLoadingRootModule`: clean the directory, reject duplicates,
run the factory (returning its error without registering on failure), append
the entity, then load. Synchronous mode returns the error of the load directly and
never records it on the entity; asynchronous mode submits the load to the
worker pool and returns a nil error — the model folds the eventual completion
of that task into the step, so the registered entity already carries the
terminal load error recorded by `setLoadErr`. Result:
(new manager state, returned entity, returned error). -/
def AddAndStartLoadingRootModule (env : LoadEnv) (rmm : rootModuleManager) (dir : String) :
    rootModuleManager × Option RootModule × Option LsError :=
  let dir := filepath.Clean dir
  match rootModuleByPath rmm dir with
  | some _ => (rmm, none, some (.alreadyAdded dir))
  | none =>
    let fr := defaultRootModuleFactory env rmm dir
    match fr.2 with
    | some e => (rmm, none, some e)
    | none =>
      let rm := fr.1
      if rmm.syncLoading then
        ({ rmm with rms := rmm.rms ++ [rm] }, some rm, env.loadErr dir)
      else
        let rmLoaded := { rm with loadErr := env.loadErr dir }
        ({ rmm with rms := rmm.rms ++ [rmLoaded] }, some rmLoaded, none)

/-- Translation of `SetTerraformExecPath`. -/
def SetTerraformExecPath (rmm : rootModuleManager) (path : String) : rootModuleManager :=
  { rmm with tfExecPath := path }

/-- Translation of `SetTerraformExecLogPath`. -/
def SetTerraformExecLogPath (rmm : rootModuleManager) (logPath : String) : rootModuleManager :=
  { rmm with tfExecLogPath := logPath }

/-- Translation of `SetTerraformExecTimeout`. -/
def SetTerraformExecTimeout (rmm : rootModuleManager) (timeout : Int) : rootModuleManager :=
  { rmm with tfExecTimeout := timeout }

/-- Observable events of a manager operation, recording the order of
side effects. -/
inductive ManagerEvent where
  | cancelRoot (path : String)
  | stopPool
deriving DecidableEq, Repr

/-- Translation of `CancelLoading`: signal the cancellation handle of every
registered entity in
registry order, then stop the worker pool. Returns the new state and the
ordered event trace of the imperative sequence. -/
def CancelLoading (rmm : rootModuleManager) : rootModuleManager × List ManagerEvent :=
  ({ rmm with rms := rmm.rms.map RootModule.CancelLoading, poolStopped := true },
   rmm.rms.map (fun rm => ManagerEvent.cancelRoot rm.path) ++ [ManagerEvent.stopPool])

/-- The selection a candidate contributes during the schema loop: its merged
schema when the computation neither errors nor yields a nil schema. -/
def firstSchemaOf (rm : RootModule) : Option BodySchema :=
  match rm.mergedSchemaRes with
  | .ok (some s) => some s
  | _ => none

/-- Restatement, following the words of the spec, of the candidate search:
the exact-or-suffix-trimmed match from the strict lookup, included only if it
was successfully initialized, followed by every registered root whose
referenced module paths contain the (cleaned) path, in registry insertion
order. To be compared with `RootModuleCandidatesByPath`. -/
def candidatesSpecification (rmm : rootModuleManager) (path : String) : List RootModule :=
  (match RootModuleByPath rmm path with
   | .ok rm => if rm.inited then [rm] else []
   | .error _ => []) ++
    rmm.rms.filter (fun rm => rm.ReferencesModulePath (filepath.Clean path))

/-- Restatement, following the words of the spec, of schema resolution: the
first candidate (in candidate order) yielding a non-nil schema wins, schema
errors are skipped; with no such candidate the strict lookup decides,
returning its error (including not-found) or the merged-schema result of the
matched root. To be compared with `SchemaForPath`. -/
def schemaSpecification (rmm : rootModuleManager) (path : String) :
    Except LsError (Option BodySchema) :=
  match (RootModuleCandidatesByPath rmm path).findSome? firstSchemaOf with
  | some s => .ok (some s)
  | none =>
    match RootModuleByPath rmm path with
    | .error e => .error e
    | .ok rm => rm.mergedSchemaRes

/-! Concrete sample objects used by witnesses and counterexample-style
evaluations. -/

/-- A freshly constructed manager with an empty registry. -/
def emptyMgr : rootModuleManager :=
  { rms := [], syncLoading := false, tfExecPath := "", tfExecTimeout := 0,
    tfExecLogPath := "", poolStopped := false }

/-- An environment in which every collaborator step succeeds. -/
def envOk : LoadEnv :=
  { discoverCachesErr := fun _ => none, loadErr := fun _ => none,
    inited := fun _ => true, mergedSchemaRes := fun _ => .ok none,
    referencedModulePaths := fun _ => [] }

/-- An environment in which the local-cache discovery step fails. -/
def envDiscoFail : LoadEnv :=
  { envOk with discoverCachesErr := fun _ => some (.external "disco") }

/-- An environment in which the load sequence ends in a terminal error. -/
def envLoadFail : LoadEnv :=
  { envOk with loadErr := fun _ => some (.external "load") }

/-- An initialized root at `/p/a` that (pathologically) lists its own
directory among its referenced module paths. -/
def rootA : RootModule :=
  { path := "/p/a", tfExecPath := "", tfExecTimeout := 0, tfExecLogPath := "",
    inited := true, mergedSchemaRes := .ok none,
    referencedModulePaths := ["/p/a"], loadErr := none, cancelled := false }

/-- A manager whose registry holds exactly `rootA`. -/
def mgrA : rootModuleManager :=
  { emptyMgr with rms := [rootA] }

/-! Helper lemmas. -/

/-- Finding in an appended list when the first part has no match. -/
theorem find?_append_of_none {α : Type} (p : α → Bool) {l₁ : List α} (l₂ : List α)
    (h : l₁.find? p = none) : (l₁ ++ l₂).find? p = l₂.find? p := by
  rw [List.find?_append, h, Option.none_or]

/-- A path with no recognized suffix is left unchanged by the trimming
fallback. -/
theorem trimLockFilePath_eq_of_no_suffix (q : String)
    (h : endsWithRecognizedSuffix q = false) : trimLockFilePath q = q := by
  unfold endsWithRecognizedSuffix at h
  rw [Bool.or_eq_false_iff] at h
  obtain ⟨h1, h2⟩ := h
  rw [List.any_eq_false] at h1
  unfold trimLockFilePath
  rw [List.find?_eq_none.mpr (fun s hs => by simp [h1 s hs])]
  simp [h2]

/-- The candidate loop of `SchemaForPath` computes `findSome? firstSchemaOf`. -/
theorem schemaLoop_eq_findSome (l : List RootModule) :
    schemaLoop l = l.findSome? firstSchemaOf := by
  induction l with
  | nil => rfl
  | cons rm rest ih =>
    rw [List.findSome?_cons]
    unfold schemaLoop firstSchemaOf
    match h : rm.mergedSchemaRes with
    | .error _ => simpa using ih
    | .ok none => simpa using ih
    | .ok (some s) => simp

/-- Shape of a successful registration: the entity is appended at the end of
the registry, returned to the caller, carries the cleaned directory as its
path and is seeded with the defaults of the manager. -/
theorem addSuccess_shape (env : LoadEnv) (rmm : rootModuleManager) (d : String)
    (h0 : rootModuleByPath rmm (filepath.Clean d) = none)
    (h1 : env.discoverCachesErr (filepath.Clean d) = none) :
    ∃ rm, (AddAndStartLoadingRootModule env rmm d).1.rms = rmm.rms ++ [rm] ∧
      (AddAndStartLoadingRootModule env rmm d).2.1 = some rm ∧
      rm.path = filepath.Clean d ∧
      rm.tfExecPath = rmm.tfExecPath ∧
      rm.tfExecTimeout = rmm.tfExecTimeout ∧
      rm.tfExecLogPath = rmm.tfExecLogPath := by
  unfold AddAndStartLoadingRootModule defaultRootModuleFactory
  simp only [h0, h1]
  cases hs : rmm.syncLoading <;> simp [hs]

/-- Registration against a directory already present in the registry: the
call returns the already-added error and changes nothing. -/
theorem add_already_added (env : LoadEnv) (rmm : rootModuleManager) (d : String)
    (rm : RootModule) (h : rootModuleByPath rmm (filepath.Clean d) = some rm) :
    AddAndStartLoadingRootModule env rmm d =
      (rmm, none, some (LsError.alreadyAdded (filepath.Clean d))) := by
  unfold AddAndStartLoadingRootModule
  simp only [h]

/-! Claim theorems. -/

/-- C2: for every path `p`, `RootModuleByPath p` returns the registered root
whose path equals `Clean p` if one exists; otherwise, when `Clean p` ends in
a recognized plugin-lock-file or module-manifest suffix, it returns the root
registered at the suffix-trimmed path; otherwise it returns a
`RootModuleNotFoundErr` carrying the cleaned path. -/
theorem rootModuleByPath_lookup_cases (rmm : rootModuleManager) (p : String) :
    (∃ rm, rootModuleByPath rmm (filepath.Clean p) = some rm ∧
      RootModuleByPath rmm p = .ok rm) ∨
    (rootModuleByPath rmm (filepath.Clean p) = none ∧
      endsWithRecognizedSuffix (filepath.Clean p) = true ∧
      ∃ rm, rootModuleByPath rmm (trimLockFilePath (filepath.Clean p)) = some rm ∧
        RootModuleByPath rmm p = .ok rm) ∨
    (rootModuleByPath rmm (filepath.Clean p) = none ∧
      rootModuleByPath rmm (trimLockFilePath (filepath.Clean p)) = none ∧
      RootModuleByPath rmm p = .error (.rootModuleNotFound (filepath.Clean p))) := by
  cases hE : rootModuleByPath rmm (filepath.Clean p) with
  | some rm => exact Or.inl ⟨rm, rfl, by simp [RootModuleByPath, hE]⟩
  | none =>
    cases hT : rootModuleByPath rmm (trimLockFilePath (filepath.Clean p)) with
    | some rm =>
      refine Or.inr (Or.inl ⟨rfl, ?_, rm, rfl, by simp [RootModuleByPath, hE, hT]⟩)
      cases hs : endsWithRecognizedSuffix (filepath.Clean p) with
      | true => rfl
      | false =>
        rw [trimLockFilePath_eq_of_no_suffix _ hs, hE] at hT
        exact Option.noConfusion hT
    | none => exact Or.inr (Or.inr ⟨rfl, rfl, by simp [RootModuleByPath, hE, hT]⟩)

/-- C3: the candidate search returns the direct (exact or suffix-trimmed)
match, included only if that root was successfully initialized, followed by
every registered root whose referenced module paths contain the cleaned path,
in registry insertion order, with no initialization filter on the reference
matches. -/
theorem candidates_direct_then_references (rmm : rootModuleManager) (p : String) :
    RootModuleCandidatesByPath rmm p = candidatesSpecification rmm p := by
  unfold RootModuleCandidatesByPath candidatesSpecification RootModuleByPath
  cases hE : rootModuleByPath rmm (filepath.Clean p) with
  | some rm => simp [hE]
  | none =>
    cases hT : rootModuleByPath rmm (trimLockFilePath (filepath.Clean p)) with
    | some rm => simp [hE, hT]
    | none => simp [hE, hT]

/-- C8: for every registered root `r` and every path `p` whose cleaned form
is the path of `r` (the path of a registered root being itself clean), the
lookups for `p` and for the path of `r` return the same entity, and succeed. -/
theorem rootModuleByPath_respects_clean (rmm : rootModuleManager) (r : RootModule)
    (p : String) (hr : r ∈ rmm.rms) (hc : filepath.Clean p = r.path)
    (hcr : filepath.Clean r.path = r.path) :
    RootModuleByPath rmm p = RootModuleByPath rmm r.path ∧
    ∃ rm, RootModuleByPath rmm p = .ok rm := by
  have hfind : (rmm.rms.find? (fun rm => pathEquals rm.path r.path)).isSome :=
    List.find?_isSome.mpr ⟨r, hr, by simp [pathEquals]⟩
  obtain ⟨rm, hrm⟩ := Option.isSome_iff_exists.mp hfind
  have hrm2 : rootModuleByPath rmm r.path = some rm := hrm
  exact ⟨by simp [RootModuleByPath, hc, hcr, hrm2],
    rm, by simp [RootModuleByPath, hc, hrm2]⟩

/-- C8 witness: in the one-root registry, looking up `/p/a/.` (which cleans
to `/p/a`) and looking up `/p/a` return the same entity. -/
theorem rootModuleByPath_respects_clean_witness :
    rootA ∈ mgrA.rms ∧ filepath.Clean "/p/a/." = rootA.path ∧
    filepath.Clean rootA.path = rootA.path ∧
    (RootModuleByPath mgrA "/p/a/." = RootModuleByPath mgrA rootA.path ∧
      ∃ rm, RootModuleByPath mgrA "/p/a/." = .ok rm) :=
  ⟨by decide, by decide, by decide,
    rootModuleByPath_respects_clean mgrA rootA "/p/a/." (by decide) (by decide) (by decide)⟩

/-- C10: the candidate search does not deduplicate — in a registry whose one
root `/p/a` is initialized and lists `/p/a` among its own referenced module
paths, the candidates for `/p/a` contain that root twice (once from the
direct-match phase, once from the reference scan). -/
theorem candidates_contain_duplicate :
    RootModuleCandidatesByPath mgrA "/p/a" = [rootA, rootA] := by decide

/-- C1: registering a directory twice (second directory cleaning to the same
path) fails on the second call with the already-added error, leaves the state
unchanged, and the registry contains exactly one entity at the cleaned path. -/
theorem register_twice_already_added (env₁ env₂ : LoadEnv) (rmm : rootModuleManager)
    (d₁ d₂ : String) (hd : filepath.Clean d₂ = filepath.Clean d₁)
    (h0 : rootModuleByPath rmm (filepath.Clean d₁) = none)
    (h1 : env₁.discoverCachesErr (filepath.Clean d₁) = none) :
    (AddAndStartLoadingRootModule env₂
        (AddAndStartLoadingRootModule env₁ rmm d₁).1 d₂).2.2 =
      some (LsError.alreadyAdded (filepath.Clean d₁)) ∧
    (AddAndStartLoadingRootModule env₂
        (AddAndStartLoadingRootModule env₁ rmm d₁).1 d₂).1 =
      (AddAndStartLoadingRootModule env₁ rmm d₁).1 ∧
    (AddAndStartLoadingRootModule env₁ rmm d₁).1.rms.countP
      (fun rm => rm.path == filepath.Clean d₁) = 1 := by
  obtain ⟨rm, hrms, _, hpath, -, -, -⟩ := addSuccess_shape env₁ rmm d₁ h0 h1
  have hfound : rootModuleByPath (AddAndStartLoadingRootModule env₁ rmm d₁).1
      (filepath.Clean d₂) = some rm := by
    unfold rootModuleByPath
    rw [hrms, hd, find?_append_of_none _ _ h0]
    simp [pathEquals, hpath]
  have hsecond := add_already_added env₂ (AddAndStartLoadingRootModule env₁ rmm d₁).1 d₂ rm hfound
  refine ⟨?_, ?_, ?_⟩
  · rw [hsecond, hd]
  · rw [hsecond]
  · rw [hrms, List.countP_append]
    have hzero : rmm.rms.countP (fun rm => rm.path == filepath.Clean d₁) = 0 := by
      rw [List.countP_eq_zero]
      intro a ha
      have := List.find?_eq_none.mp h0 a ha
      simpa [pathEquals] using this
    simp [hzero, hpath]

/-- C1 witness: registering `/p/a` twice on an empty manager. -/
theorem register_twice_already_added_witness :
    filepath.Clean "/p/a/" = filepath.Clean "/p/a" ∧
    rootModuleByPath emptyMgr (filepath.Clean "/p/a") = none ∧
    envOk.discoverCachesErr (filepath.Clean "/p/a") = none ∧
    ((AddAndStartLoadingRootModule envOk
        (AddAndStartLoadingRootModule envOk emptyMgr "/p/a").1 "/p/a/").2.2 =
      some (LsError.alreadyAdded (filepath.Clean "/p/a")) ∧
    (AddAndStartLoadingRootModule envOk
        (AddAndStartLoadingRootModule envOk emptyMgr "/p/a").1 "/p/a/").1 =
      (AddAndStartLoadingRootModule envOk emptyMgr "/p/a").1 ∧
    (AddAndStartLoadingRootModule envOk emptyMgr "/p/a").1.rms.countP
      (fun rm => rm.path == filepath.Clean "/p/a") = 1) :=
  ⟨by decide, by decide, by decide,
    register_twice_already_added envOk envOk emptyMgr "/p/a" "/p/a/"
      (by decide) (by decide) (by decide)⟩

/-- C4: schema resolution walks the candidates in order, skips candidates
whose merged-schema computation errors, returns the first non-nil schema, and
otherwise falls back to the strict lookup, returning its error (including the
not-found error for an unregistered path) or the merged schema of the
matched root. -/
theorem schemaForPath_first_candidate_then_strict (rmm : rootModuleManager) (p : String) :
    SchemaForPath rmm p = schemaSpecification rmm p := by
  unfold SchemaForPath schemaSpecification
  rw [schemaLoop_eq_findSome]

/-- C5: in asynchronous mode a successful registration returns the entity and
a nil error no matter how the load ends, and the terminal load error is
recorded on the registered entity; in synchronous mode the returned error is
exactly the final error of the load. -/
theorem add_load_error_routing (env : LoadEnv) (rmm : rootModuleManager) (d : String)
    (h0 : rootModuleByPath rmm (filepath.Clean d) = none)
    (h1 : env.discoverCachesErr (filepath.Clean d) = none) :
    (rmm.syncLoading = false →
      (AddAndStartLoadingRootModule env rmm d).2.2 = none ∧
      ∃ rm, (AddAndStartLoadingRootModule env rmm d).2.1 = some rm ∧
        rm.loadErr = env.loadErr (filepath.Clean d) ∧
        (AddAndStartLoadingRootModule env rmm d).1.rms = rmm.rms ++ [rm]) ∧
    (rmm.syncLoading = true →
      (AddAndStartLoadingRootModule env rmm d).2.2 = env.loadErr (filepath.Clean d) ∧
      ∃ rm, (AddAndStartLoadingRootModule env rmm d).2.1 = some rm ∧
        rm.loadErr = none ∧
        (AddAndStartLoadingRootModule env rmm d).1.rms = rmm.rms ++ [rm]) := by
  unfold AddAndStartLoadingRootModule defaultRootModuleFactory
  simp only [h0, h1]
  constructor
  · intro hs
    simp [hs]
  · intro hs
    simp [hs]

/-- C5 witness: asynchronous registration on an empty manager under an
environment whose load fails; the call still reports no error and the
failure is recorded on the entity. -/
theorem add_load_error_routing_witness :
    rootModuleByPath emptyMgr (filepath.Clean "/p/a") = none ∧
    envLoadFail.discoverCachesErr (filepath.Clean "/p/a") = none ∧
    ((emptyMgr.syncLoading = false →
      (AddAndStartLoadingRootModule envLoadFail emptyMgr "/p/a").2.2 = none ∧
      ∃ rm, (AddAndStartLoadingRootModule envLoadFail emptyMgr "/p/a").2.1 = some rm ∧
        rm.loadErr = envLoadFail.loadErr (filepath.Clean "/p/a") ∧
        (AddAndStartLoadingRootModule envLoadFail emptyMgr "/p/a").1.rms =
          emptyMgr.rms ++ [rm]) ∧
    (emptyMgr.syncLoading = true →
      (AddAndStartLoadingRootModule envLoadFail emptyMgr "/p/a").2.2 =
        envLoadFail.loadErr (filepath.Clean "/p/a") ∧
      ∃ rm, (AddAndStartLoadingRootModule envLoadFail emptyMgr "/p/a").2.1 = some rm ∧
        rm.loadErr = none ∧
        (AddAndStartLoadingRootModule envLoadFail emptyMgr "/p/a").1.rms =
          emptyMgr.rms ++ [rm])) :=
  ⟨by decide, by decide,
    add_load_error_routing envLoadFail emptyMgr "/p/a" (by decide) (by decide)⟩

/-- C6: cancellation signals the cancellation handle of every registered
entity, in insertion order (the event trace lists one cancel per root, in
registry order, all before the pool stop), stops the pool, and a second call
leaves the state unchanged. -/
theorem cancelLoading_all_roots_then_pool (rmm : rootModuleManager) :
    (∀ rm ∈ (CancelLoading rmm).1.rms, rm.cancelled = true) ∧
    (CancelLoading rmm).1.rms.map RootModule.path = rmm.rms.map RootModule.path ∧
    (CancelLoading rmm).2 =
      rmm.rms.map (fun rm => ManagerEvent.cancelRoot rm.path) ++ [ManagerEvent.stopPool] ∧
    (CancelLoading rmm).1.poolStopped = true ∧
    (CancelLoading (CancelLoading rmm).1).1 = (CancelLoading rmm).1 := by
  refine ⟨?_, ?_, rfl, rfl, ?_⟩
  · intro rm hrm
    obtain ⟨rm₀, -, hmap⟩ := List.mem_map.mp hrm
    rw [← hmap]
    rfl
  · simp [CancelLoading, RootModule.CancelLoading]
  · simp [CancelLoading, RootModule.CancelLoading, Function.comp]

/-- C6 witness: cancelling the one-root manager. -/
theorem cancelLoading_all_roots_then_pool_witness :
    (∀ rm ∈ (CancelLoading mgrA).1.rms, rm.cancelled = true) ∧
    (CancelLoading mgrA).1.rms.map RootModule.path = mgrA.rms.map RootModule.path ∧
    (CancelLoading mgrA).2 =
      mgrA.rms.map (fun rm => ManagerEvent.cancelRoot rm.path) ++ [ManagerEvent.stopPool] ∧
    (CancelLoading mgrA).1.poolStopped = true ∧
    (CancelLoading (CancelLoading mgrA).1).1 = (CancelLoading mgrA).1 :=
  cancelLoading_all_roots_then_pool mgrA

/-- C7: each toolchain setter rewrites only its own default on the manager —
the registry (hence every previously created entity) and the other defaults
are untouched — while the factory seeds an entity created after the call
with the new value. -/
theorem setters_only_affect_future_roots (rmm : rootModuleManager)
    (p l : String) (t : Int) (env : LoadEnv) (dir : String) :
    (SetTerraformExecPath rmm p).rms = rmm.rms ∧
    (SetTerraformExecLogPath rmm l).rms = rmm.rms ∧
    (SetTerraformExecTimeout rmm t).rms = rmm.rms ∧
    (SetTerraformExecPath rmm p).tfExecTimeout = rmm.tfExecTimeout ∧
    (SetTerraformExecPath rmm p).tfExecLogPath = rmm.tfExecLogPath ∧
    (SetTerraformExecLogPath rmm l).tfExecPath = rmm.tfExecPath ∧
    (SetTerraformExecLogPath rmm l).tfExecTimeout = rmm.tfExecTimeout ∧
    (SetTerraformExecTimeout rmm t).tfExecPath = rmm.tfExecPath ∧
    (SetTerraformExecTimeout rmm t).tfExecLogPath = rmm.tfExecLogPath ∧
    (defaultRootModuleFactory env (SetTerraformExecPath rmm p) dir).1.tfExecPath = p ∧
    (defaultRootModuleFactory env (SetTerraformExecLogPath rmm l) dir).1.tfExecLogPath = l ∧
    (defaultRootModuleFactory env (SetTerraformExecTimeout rmm t) dir).1.tfExecTimeout = t ∧
    (defaultRootModuleFactory env rmm dir).1.tfExecPath = rmm.tfExecPath ∧
    (defaultRootModuleFactory env rmm dir).1.tfExecTimeout = rmm.tfExecTimeout ∧
    (defaultRootModuleFactory env rmm dir).1.tfExecLogPath = rmm.tfExecLogPath :=
  ⟨rfl, rfl, rfl, rfl, rfl, rfl, rfl, rfl, rfl, rfl, rfl, rfl, rfl, rfl, rfl⟩

/-- C9: when the factory fails (local-cache discovery errors), registration
returns no entity and that error, the state is unchanged, and a later
registration of the same directory under a healthy environment succeeds and
appends the entity. -/
theorem factory_failure_leaves_registry_unchanged (env env' : LoadEnv)
    (rmm : rootModuleManager) (d : String) (e : LsError)
    (h0 : rootModuleByPath rmm (filepath.Clean d) = none)
    (h1 : env.discoverCachesErr (filepath.Clean d) = some e)
    (h2 : env'.discoverCachesErr (filepath.Clean d) = none) :
    AddAndStartLoadingRootModule env rmm d = (rmm, none, some e) ∧
    ∃ rm, (AddAndStartLoadingRootModule env' rmm d).2.1 = some rm ∧
      rm.path = filepath.Clean d ∧
      (AddAndStartLoadingRootModule env' rmm d).1.rms = rmm.rms ++ [rm] := by
  constructor
  · unfold AddAndStartLoadingRootModule defaultRootModuleFactory
    simp only [h0, h1]
  · obtain ⟨rm, hrms, hret, hpath, -, -, -⟩ := addSuccess_shape env' rmm d h0 h2
    exact ⟨rm, hret, hpath, hrms⟩

/-- C9 witness: on an empty manager, a discovery failure for `/p/a` changes
nothing and a retry with a healthy environment registers the root. -/
theorem factory_failure_leaves_registry_unchanged_witness :
    rootModuleByPath emptyMgr (filepath.Clean "/p/a") = none ∧
    envDiscoFail.discoverCachesErr (filepath.Clean "/p/a") = some (.external "disco") ∧
    envOk.discoverCachesErr (filepath.Clean "/p/a") = none ∧
    (AddAndStartLoadingRootModule envDiscoFail emptyMgr "/p/a" =
        (emptyMgr, none, some (.external "disco")) ∧
    ∃ rm, (AddAndStartLoadingRootModule envOk emptyMgr "/p/a").2.1 = some rm ∧
      rm.path = filepath.Clean "/p/a" ∧
      (AddAndStartLoadingRootModule envOk emptyMgr "/p/a").1.rms =
        emptyMgr.rms ++ [rm]) :=
  ⟨by decide, by decide, by decide,
    factory_failure_leaves_registry_unchanged envDiscoFail envOk emptyMgr "/p/a"
      (.external "disco") (by decide) (by decide) (by decide)⟩

end RootModuleVerif
